import Mathlib

/-!
Verification of the core of `vrpelvisim-deepdrr-zmq` against its design
specification.  Shallow embedding of:

* `deepdrrzmq/utils/zmq_util.py` — `zmq_poll_latest`;
* `deepdrrzmq/process.py` — `ManagerProcess.check_watchdog` and the
  restart logic around the watchdog-seen flag;
* `deepdrrzmq/loggerd.py` — `LogShardWriter` (shard rotation) and
  `LogRecorder` (session start/stop, no-op writes);
* `deepdrrzmq/replayd.py` — `LogReplayer` (cursor, `seek_time`) and
  `LogReplayServer` (play-state setter, command loop, replay loop).

Machine floats carrying times are modelled as rationals; byte payloads
and topics as strings; Python exceptions as explicit error values.
-/

set_option autoImplicit false

namespace ZmqUtil

abbrev Topic := String
abbrev Payload := String

/-- Python-dict insertion/update on an association list (`latest_msgs[topic] = data`):
replace the value in place if the key is present, else append at the end. -/
def updateAssoc : List (Topic × Payload) → Topic → Payload → List (Topic × Payload)
  | [], t, d => [(t, d)]
  | (t', d') :: rest, t, d =>
    if t' = t then (t, d) :: rest else (t', d') :: updateAssoc rest t d

/-- First value bound to `t` in an association list (Python dict lookup,
and also "payload of the first message with topic `t`" on a raw queue). -/
def lookupAssoc (m : List (Topic × Payload)) (t : Topic) : Option Payload :=
  (m.find? (fun p => p.1 = t)).map Prod.snd

/-- Payload of the last message with topic `t` in a queue. -/
def lastPayload (q : List (Topic × Payload)) (t : Topic) : Option Payload :=
  q.foldl (fun o p => if p.1 = t then some p.2 else o) none

/-- The non-blocking drain loop of `zmq_poll_latest`:
`for i in range(max_skip): topic, data = recv(NOBLOCK); latest_msgs[topic] = data;
 if topic in no_drop_topics: return latest_msgs`.
The queue running empty raises `zmq.ZMQError`, which is caught and
terminates the drain. -/
def pollDrain (no_drop : List Topic) :
    Nat → List (Topic × Payload) → List (Topic × Payload) → List (Topic × Payload)
  | _, acc, [] => acc
  | 0, acc, _ => acc
  | k + 1, acc, (t, d) :: rest =>
    let acc2 := updateAssoc acc t d
    if t ∈ no_drop then acc2 else pollDrain no_drop k acc2 rest

/-- The `zmq_poll_latest(sub_socket, max_skip, no_drop_topics)` over an abstract
message queue: the head of the queue is the message obtained by the initial
blocking `recv_multipart`; an empty queue means the call blocks forever
(modelled as `none`). -/
def zmq_poll_latest (max_skip : Nat) (no_drop : List Topic) :
    List (Topic × Payload) → Option (List (Topic × Payload))
  | [] => none
  | (t, d) :: rest =>
    let latest := [(t, d)]
    if t ∈ no_drop then some latest
    else some (pollDrain no_drop max_skip latest rest)

theorem lookupAssoc_nil (t : Topic) : lookupAssoc [] t = none := rfl

theorem lookupAssoc_cons (t' : Topic) (d' : Payload) (rest : List (Topic × Payload)) (t : Topic) :
    lookupAssoc ((t', d') :: rest) t = if t' = t then some d' else lookupAssoc rest t := by
  by_cases h : t' = t <;> simp [lookupAssoc, List.find?, h]

theorem lookup_updateAssoc (m : List (Topic × Payload)) (t t' : Topic) (d : Payload) :
    lookupAssoc (updateAssoc m t d) t' = if t = t' then some d else lookupAssoc m t' := by
  induction m with
  | nil =>
    by_cases h : t = t' <;> simp [updateAssoc, lookupAssoc_cons, lookupAssoc_nil, h]
  | cons p rest ih =>
    obtain ⟨tk, dk⟩ := p
    by_cases hk : tk = t
    · subst hk
      by_cases h : tk = t' <;> simp [updateAssoc, lookupAssoc_cons, h]
    · by_cases h : t = t'
      · subst h
        simp [updateAssoc, hk, lookupAssoc_cons, ih]
      · simp only [updateAssoc, if_neg hk, lookupAssoc_cons, ih, if_neg h]

/-- During the drain, as long as no no-drop topic has been stored yet, the value
the result binds to a no-drop topic is the value of the *first* message with
that topic in the remaining queue: the drain stops there. -/
theorem pollDrain_no_drop_first (nd : List Topic) :
    ∀ (rest : List (Topic × Payload)) (k : Nat) (acc : List (Topic × Payload)),
      (∀ t ∈ nd, lookupAssoc acc t = none) →
      ∀ t d, t ∈ nd → lookupAssoc (pollDrain nd k acc rest) t = some d →
      lookupAssoc rest t = some d := by
  intro rest
  induction rest with
  | nil =>
    intro k acc hacc t d ht hl
    simp only [pollDrain] at hl
    rw [hacc t ht] at hl
    exact absurd hl (by simp)
  | cons p rest ih =>
    intro k acc hacc t d ht hl
    obtain ⟨t', d'⟩ := p
    match k with
    | 0 =>
      simp only [pollDrain] at hl
      rw [hacc t ht] at hl
      exact absurd hl (by simp)
    | k + 1 =>
      simp only [pollDrain] at hl
      by_cases hnd : t' ∈ nd
      · rw [if_pos hnd] at hl
        rw [lookup_updateAssoc] at hl
        by_cases he : t' = t
        · subst he
          rw [if_pos rfl] at hl
          rw [lookupAssoc_cons, if_pos rfl]
          exact hl
        · rw [if_neg he] at hl
          rw [hacc t ht] at hl
          exact absurd hl (by simp)
      · rw [if_neg hnd] at hl
        have hacc2 : ∀ u ∈ nd, lookupAssoc (updateAssoc acc t' d') u = none := by
          intro u hu
          rw [lookup_updateAssoc]
          have hne : t' ≠ u := fun h => hnd (h ▸ hu)
          rw [if_neg hne]
          exact hacc u hu
        have hrest := ih k _ hacc2 t d ht hl
        have hne : t' ≠ t := fun h => hnd (h ▸ ht)
        rw [lookupAssoc_cons, if_neg hne]
        exact hrest

/-- When no queued message carries a no-drop topic and the queue fits under the
skip cap, the drain processes the whole queue, folding each message into the
latest-per-topic map. -/
theorem pollDrain_eq_foldl (nd : List Topic) :
    ∀ (rest : List (Topic × Payload)) (k : Nat) (acc : List (Topic × Payload)),
      (∀ p ∈ rest, p.1 ∉ nd) → rest.length ≤ k →
      pollDrain nd k acc rest = rest.foldl (fun a p => updateAssoc a p.1 p.2) acc := by
  intro rest
  induction rest with
  | nil => intro k acc _ _; simp [pollDrain]
  | cons p rest ih =>
    intro k acc hno hlen
    obtain ⟨t', d'⟩ := p
    match k with
    | 0 => exact absurd hlen (by simp)
    | k + 1 =>
      have hnd : t' ∉ nd := hno (t', d') (by simp)
      simp only [pollDrain, if_neg hnd, List.foldl_cons]
      exact ih k _ (fun p hp => hno p (by simp [hp])) (by simpa using hlen)

theorem lookup_foldl_update :
    ∀ (q : List (Topic × Payload)) (acc : List (Topic × Payload)) (t : Topic),
      lookupAssoc (q.foldl (fun a p => updateAssoc a p.1 p.2) acc) t =
        q.foldl (fun o p => if p.1 = t then some p.2 else o) (lookupAssoc acc t) := by
  intro q
  induction q with
  | nil => intro acc t; rfl
  | cons p q ih =>
    intro acc t
    simp only [List.foldl_cons, ih, lookup_updateAssoc]

/-- C1: `zmq_poll_latest` blocks until one message arrives (no result on an
empty queue); if that first message's topic is in `no_drop_topics` it returns
immediately with only that message; a no-drop topic present in the result is
bound to the payload of the *first* message of that topic in the queue (never
overwritten by a later message of the same topic); and on the general path —
no no-drop topic queued, queue within the `max_skip` cap — the result maps
each topic to the most recent queued payload for it. -/
theorem zmq_poll_latest_spec (k : Nat) (nd : List Topic) (q : List (Topic × Payload)) :
    (zmq_poll_latest k nd [] = none) ∧
    (∀ t d rest, q = (t, d) :: rest → t ∈ nd → zmq_poll_latest k nd q = some [(t, d)]) ∧
    (∀ r t d, zmq_poll_latest k nd q = some r → t ∈ nd →
        lookupAssoc r t = some d → lookupAssoc q t = some d) ∧
    (∀ r t, zmq_poll_latest k nd q = some r → (∀ p ∈ q, p.1 ∉ nd) →
        q.length ≤ 1 + k → lookupAssoc r t = lastPayload q t) := by
  refine ⟨rfl, ?_, ?_, ?_⟩
  · intro t d rest hq ht
    subst hq
    simp [zmq_poll_latest, if_pos ht]
  · intro r t d hpoll ht hl
    match q with
    | [] => exact absurd hpoll (by simp [zmq_poll_latest])
    | (t0, d0) :: rest =>
      by_cases h0 : t0 ∈ nd
      · simp only [zmq_poll_latest, if_pos h0, Option.some.injEq] at hpoll
        subst hpoll
        by_cases he : t0 = t
        · subst he
          rw [lookupAssoc_cons, if_pos rfl] at hl ⊢
          exact hl
        · rw [lookupAssoc_cons, if_neg he, lookupAssoc_nil] at hl
          exact absurd hl (by simp)
      · simp only [zmq_poll_latest, if_neg h0, Option.some.injEq] at hpoll
        subst hpoll
        have hacc : ∀ u ∈ nd, lookupAssoc [(t0, d0)] u = none := by
          intro u hu
          have hne : t0 ≠ u := fun h => h0 (h ▸ hu)
          rw [lookupAssoc_cons, if_neg hne, lookupAssoc_nil]
        have hrest := pollDrain_no_drop_first nd rest k _ hacc t d ht hl
        have hne : t0 ≠ t := fun h => h0 (h ▸ ht)
        rw [lookupAssoc_cons, if_neg hne]
        exact hrest
  · intro r t hpoll hno hlen
    match q with
    | [] => exact absurd hpoll (by simp [zmq_poll_latest])
    | (t0, d0) :: rest =>
      have h0 : t0 ∉ nd := hno (t0, d0) (by simp)
      simp only [zmq_poll_latest, if_neg h0, Option.some.injEq] at hpoll
      subst hpoll
      rw [pollDrain_eq_foldl nd rest k _ (fun p hp => hno p (by simp [hp]))
        (by simpa [Nat.add_comm] using hlen)]
      rw [lookup_foldl_update]
      have hbase : lookupAssoc [(t0, d0)] t = if t0 = t then some d0 else none := by
        rw [lookupAssoc_cons, lookupAssoc_nil]
      rw [hbase]
      simp [lastPayload]

/-- Concrete instantiation of `zmq_poll_latest_spec`: with queue
`[("a","1"),("n","7"),("a","2")]` and no-drop set `["n"]`, the no-drop topic
`"n"` is bound to its first (and only) queued payload. -/
theorem zmq_poll_latest_spec_witness :
    lookupAssoc [("a", "1"), ("n", "7"), ("a", "2")] "n" = some "7" :=
  (zmq_poll_latest_spec 5 ["n"] [("a", "1"), ("n", "7"), ("a", "2")]).2.2.1
    [("a", "1"), ("n", "7")] "n" "7" (by decide) (by decide) (by decide)

end ZmqUtil

namespace ProcessMgr

/-- The child OS process handle; the only attribute `check_watchdog` consults
is `is_alive()`. -/
structure ProcHandle where
  alive : Bool
deriving DecidableEq

/-- The watchdog-relevant state of `ManagerProcess`.  `last_watchdog_time` is
stored in nanoseconds, as sent by the heartbeat publisher (the code divides it
by `1e9` before comparing). -/
structure ManagerProcess where
  watchdog_max_dt : Option ℚ
  last_watchdog_time : ℚ
  watchdog_seen : Bool
  proc : Option ProcHandle
deriving DecidableEq

/-- The `start()`: spawns a fresh child process and clears the watchdog-seen flag
(`self.watchdog_seen = False`). -/
def startProc (s : ManagerProcess) : ManagerProcess :=
  { s with proc := some ⟨true⟩, watchdog_seen := false }

/-- The `restart()` = `stop(); start()`: the net effect on the modelled fields is
a fresh live child and a cleared watchdog-seen flag. -/
def restartProc (s : ManagerProcess) : ManagerProcess :=
  startProc s

structure CheckResult where
  st : ManagerProcess
  deathRestart : Bool
  stalenessRestart : Bool
deriving DecidableEq

/-- The `ManagerProcess.check_watchdog(last_watchdog_time)`.  Returns early when no
watchdog timeout is configured or no child exists; otherwise updates the stored
heartbeat time if one was supplied, computes
`dt = time.time() - last_watchdog_time / 1e9`, restarts a dead child (when
`ENABLE_WATCHDOG`), then restarts on staleness only if `watchdog_seen`, and
sets `watchdog_seen` when `dt` is within the timeout. -/
def check_watchdog (enable_watchdog : Bool) (now : ℚ) (s : ManagerProcess)
    (last_watchdog_time : Option ℚ) : CheckResult :=
  match s.watchdog_max_dt, s.proc with
  | none, _ => ⟨s, false, false⟩
  | some _, none => ⟨s, false, false⟩
  | some maxdt, some p =>
    let s1 := match last_watchdog_time with
      | some t => { s with last_watchdog_time := t }
      | none => s
    let dt := now - s1.last_watchdog_time / 1000000000
    let death : Bool := !p.alive && enable_watchdog
    let s2 := if death then restartProc s1 else s1
    if maxdt < dt then
      if s2.watchdog_seen && enable_watchdog then ⟨restartProc s2, death, true⟩
      else ⟨s2, death, false⟩
    else
      ⟨{ s2 with watchdog_seen := true }, death, false⟩

/-- C3 counterexample: the claim says a process with `watchdog_max_dt = None`
is restarted by `check_watchdog` whenever its child is not alive; but the
code returns at the very first line (`if self.watchdog_max_dt is None ...:
return`), so a dead child of such a process is never restarted there. -/
theorem check_watchdog_no_timeout_counterexample :
    ¬ (∀ (enable : Bool) (now : ℚ) (s : ManagerProcess) (hb : Option ℚ),
        s.watchdog_max_dt = none → s.proc = some ⟨false⟩ →
        (check_watchdog enable now s hb).deathRestart = true) := by
  intro h
  have h1 := h true 100 ⟨none, 0, false, some ⟨false⟩⟩ none rfl rfl
  simp [check_watchdog] at h1

/-- C3 amended: when `watchdog_max_dt` is unset, `check_watchdog` is a no-op —
it neither restarts on heartbeat staleness nor on a dead child process; the
unconditional restart-on-death only applies to processes that do have a
configured watchdog timeout. -/
theorem check_watchdog_no_timeout_noop (enable : Bool) (now : ℚ) (s : ManagerProcess)
    (hb : Option ℚ) (h : s.watchdog_max_dt = none) :
    check_watchdog enable now s hb = ⟨s, false, false⟩ := by
  unfold check_watchdog
  rw [h]

/-- Witness for `check_watchdog_no_timeout_noop` at a concrete dead process. -/
theorem check_watchdog_no_timeout_noop_witness :
    check_watchdog true 100 ⟨none, 5, true, some ⟨false⟩⟩ (some 3) =
      ⟨⟨none, 5, true, some ⟨false⟩⟩, false, false⟩ :=
  check_watchdog_no_timeout_noop true 100 ⟨none, 5, true, some ⟨false⟩⟩ (some 3) rfl

/-- One observation round of the supervisor loop: the child's current
liveness, the wall clock, and the heartbeat value (if any) passed to
`check_watchdog`. -/
structure WatchdogInput where
  now : ℚ
  last_hb : Option ℚ
  alive : Bool

/-- The child's liveness as observed at this round (`self.proc.is_alive()`). -/
def observeAlive (s : ManagerProcess) (alive : Bool) : ManagerProcess :=
  { s with proc := s.proc.map (fun _ => ⟨alive⟩) }

def wstep (enable : Bool) (s : ManagerProcess) (i : WatchdogInput) : CheckResult :=
  check_watchdog enable i.now (observeAlive s i.alive) i.last_hb

/-- Iterated `check_watchdog` calls; returns the final state together with the
number of staleness-triggered restarts and of death-triggered restarts. -/
def runWatchdog (enable : Bool) : ManagerProcess → List WatchdogInput → ManagerProcess × Nat × Nat
  | s, [] => (s, 0, 0)
  | s, i :: is =>
    let r := wstep enable s i
    let rest := runWatchdog enable r.st is
    (rest.1, (if r.stalenessRestart then 1 else 0) + rest.2.1,
      (if r.deathRestart then 1 else 0) + rest.2.2)

theorem check_watchdog_preserves (enable : Bool) (now : ℚ) (s : ManagerProcess) :
    (check_watchdog enable now s none).st.watchdog_max_dt = s.watchdog_max_dt ∧
    (check_watchdog enable now s none).st.last_watchdog_time = s.last_watchdog_time := by
  obtain ⟨mx, lt, ws, pr⟩ := s
  rcases mx with _ | maxdt <;> rcases pr with _ | p
  · exact ⟨rfl, rfl⟩
  · exact ⟨rfl, rfl⟩
  · exact ⟨rfl, rfl⟩
  · dsimp only [check_watchdog]
    split_ifs <;> exact ⟨rfl, rfl⟩

theorem wstep_preserves (enable : Bool) (s : ManagerProcess) (i : WatchdogInput)
    (hhb : i.last_hb = none) :
    (wstep enable s i).st.watchdog_max_dt = s.watchdog_max_dt ∧
    (wstep enable s i).st.last_watchdog_time = s.last_watchdog_time := by
  unfold wstep
  rw [hhb]
  exact check_watchdog_preserves enable i.now (observeAlive s i.alive)

/-- A staleness restart leaves the watchdog-seen flag cleared (it runs
`start()`, which sets `watchdog_seen = False`). -/
theorem stalenessRestart_clears_seen (enable : Bool) (now : ℚ) (s : ManagerProcess)
    (hb : Option ℚ) (h : (check_watchdog enable now s hb).stalenessRestart = true) :
    (check_watchdog enable now s hb).st.watchdog_seen = false := by
  obtain ⟨mx, lt, ws, pr⟩ := s
  rcases mx with _ | maxdt <;> rcases pr with _ | p
  · exact absurd h (by simp [check_watchdog])
  · exact absurd h (by simp [check_watchdog])
  · exact absurd h (by simp [check_watchdog])
  · rcases hb with _ | t <;>
      · dsimp only [check_watchdog] at h ⊢
        split_ifs at h ⊢ <;> simp_all [restartProc, startProc]

/-- A stale round never sets the watchdog-seen flag, and if the flag was clear
it triggers no staleness restart and stays clear. -/
theorem wstep_stale_not_seen (s : ManagerProcess) (i : WatchdogInput) (maxdt : ℚ)
    (hmax : s.watchdog_max_dt = some maxdt) (hhb : i.last_hb = none)
    (hstale : maxdt < i.now - s.last_watchdog_time / 1000000000)
    (hseen : s.watchdog_seen = false) :
    (wstep true s i).stalenessRestart = false ∧ (wstep true s i).st.watchdog_seen = false := by
  obtain ⟨mx, lt, ws, pr⟩ := s
  obtain ⟨inow, ihb, ialive⟩ := i
  dsimp only at hmax hhb hstale hseen
  subst hmax; subst hhb; subst hseen
  rcases pr with _ | p
  · exact ⟨rfl, rfl⟩
  · dsimp only [wstep, observeAlive, check_watchdog, Option.map]
    split_ifs <;> simp_all [restartProc, startProc]

/-- A live child triggers no death restart. -/
theorem wstep_alive_no_death (s : ManagerProcess) (i : WatchdogInput)
    (halive : i.alive = true) :
    (wstep true s i).deathRestart = false := by
  obtain ⟨mx, lt, ws, pr⟩ := s
  obtain ⟨inow, ihb, ialive⟩ := i
  dsimp only at halive
  subst halive
  rcases mx with _ | maxdt <;> rcases pr with _ | p
  · rfl
  · rfl
  · rfl
  · rcases ihb with _ | t <;>
      · dsimp only [wstep, observeAlive, check_watchdog, Option.map]
        split_ifs <;> rfl

theorem runWatchdog_stale_no_seen (inputs : List WatchdogInput) :
    ∀ (s : ManagerProcess) (maxdt : ℚ), s.watchdog_max_dt = some maxdt →
      s.watchdog_seen = false →
      (∀ i ∈ inputs, i.last_hb = none ∧ maxdt < i.now - s.last_watchdog_time / 1000000000) →
      (runWatchdog true s inputs).2.1 = 0 := by
  induction inputs with
  | nil => intro s maxdt _ _ _; rfl
  | cons i is ih =>
    intro s maxdt hmax hseen hstale
    obtain ⟨hhb, hdt⟩ := hstale i (by simp)
    obtain ⟨hno, hseen'⟩ := wstep_stale_not_seen s i maxdt hmax hhb hdt hseen
    obtain ⟨hmax', hlast'⟩ := wstep_preserves true s i hhb
    simp only [runWatchdog, hno, if_neg Bool.false_ne_true]
    rw [Nat.zero_add]
    exact ih (wstep true s i).st maxdt (hmax' ▸ hmax) hseen'
      (fun j hj => by rw [hlast']; exact hstale j (by simp [hj]))

theorem runWatchdog_stale_atmost_one (inputs : List WatchdogInput) :
    ∀ (s : ManagerProcess) (maxdt : ℚ), s.watchdog_max_dt = some maxdt →
      (∀ i ∈ inputs, i.last_hb = none ∧ maxdt < i.now - s.last_watchdog_time / 1000000000) →
      (runWatchdog true s inputs).2.1 ≤ 1 := by
  induction inputs with
  | nil => intro s maxdt _ _; simp [runWatchdog]
  | cons i is ih =>
    intro s maxdt hmax hstale
    obtain ⟨hhb, hdt⟩ := hstale i (by simp)
    obtain ⟨hmax', hlast'⟩ := wstep_preserves true s i hhb
    by_cases hr : (wstep true s i).stalenessRestart = true
    · have hseen' := stalenessRestart_clears_seen true i.now (observeAlive s i.alive) i.last_hb hr
      have hrest : (runWatchdog true (wstep true s i).st is).2.1 = 0 :=
        runWatchdog_stale_no_seen is (wstep true s i).st maxdt (hmax' ▸ hmax) hseen'
          (fun j hj => by rw [hlast']; exact hstale j (by simp [hj]))
      simp only [runWatchdog, hr, if_pos, hrest]
      omega
    · have hrest : (runWatchdog true (wstep true s i).st is).2.1 ≤ 1 :=
        ih (wstep true s i).st maxdt (hmax' ▸ hmax)
          (fun j hj => by rw [hlast']; exact hstale j (by simp [hj]))
      simp only [runWatchdog, if_neg hr, Nat.zero_add]
      exact hrest

theorem runWatchdog_alive_stale_no_restart (inputs : List WatchdogInput) :
    ∀ (s : ManagerProcess) (maxdt : ℚ), s.watchdog_max_dt = some maxdt →
      s.watchdog_seen = false →
      (∀ i ∈ inputs, i.last_hb = none ∧ maxdt < i.now - s.last_watchdog_time / 1000000000) →
      (∀ i ∈ inputs, i.alive = true) →
      (runWatchdog true s inputs).2.1 = 0 ∧ (runWatchdog true s inputs).2.2 = 0 := by
  induction inputs with
  | nil => intro s maxdt _ _ _ _; exact ⟨rfl, rfl⟩
  | cons i is ih =>
    intro s maxdt hmax hseen hstale halive
    obtain ⟨hhb, hdt⟩ := hstale i (by simp)
    obtain ⟨hno, hseen'⟩ := wstep_stale_not_seen s i maxdt hmax hhb hdt hseen
    have hnod := wstep_alive_no_death s i (halive i (by simp))
    obtain ⟨hmax', hlast'⟩ := wstep_preserves true s i hhb
    have hrest := ih (wstep true s i).st maxdt (hmax' ▸ hmax) hseen'
      (fun j hj => by rw [hlast']; exact hstale j (by simp [hj]))
      (fun j hj => halive j (by simp [hj]))
    simp only [runWatchdog, hno, hnod, if_neg Bool.false_ne_true, Nat.zero_add]
    exact hrest

/-- C7: for a process with a configured watchdog timeout, over any run of
supervisor rounds in which no timely heartbeat arrives (every round's `dt`
exceeds the timeout): (1) at most one staleness restart occurs; (2) if the
watchdog-seen flag starts cleared — as `start()` leaves it — no staleness
restart occurs at all; (3) if moreover the child stays alive, no restart of
any kind occurs before the first timely heartbeat; and (4) a single round
sets the watchdog-seen flag only when the elapsed time since the last
heartbeat is within the timeout. -/
theorem watchdog_staleness_restart_once (s : ManagerProcess) (maxdt : ℚ)
    (inputs : List WatchdogInput) (hmax : s.watchdog_max_dt = some maxdt)
    (hstale : ∀ i ∈ inputs, i.last_hb = none ∧
      maxdt < i.now - s.last_watchdog_time / 1000000000) :
    ((runWatchdog true s inputs).2.1 ≤ 1) ∧
    (s.watchdog_seen = false → (runWatchdog true s inputs).2.1 = 0) ∧
    (s.watchdog_seen = false → (∀ i ∈ inputs, i.alive = true) →
      (runWatchdog true s inputs).2.1 = 0 ∧ (runWatchdog true s inputs).2.2 = 0) ∧
    (∀ (s' : ManagerProcess) (i : WatchdogInput) (maxdt' : ℚ),
      s'.watchdog_max_dt = some maxdt' → s'.watchdog_seen = false →
      (wstep true s' i).st.watchdog_seen = true →
      i.now - (i.last_hb.getD s'.last_watchdog_time) / 1000000000 ≤ maxdt') := by
  refine ⟨runWatchdog_stale_atmost_one inputs s maxdt hmax hstale,
    fun hseen => runWatchdog_stale_no_seen inputs s maxdt hmax hseen hstale,
    fun hseen halive => runWatchdog_alive_stale_no_restart inputs s maxdt hmax hseen hstale halive,
    ?_⟩
  intro s' i maxdt' hmax' hseen' hset
  by_contra hgt
  rw [not_le] at hgt
  obtain ⟨mx, lt, ws, pr⟩ := s'
  obtain ⟨inow, ihb, ialive⟩ := i
  dsimp only at hmax' hseen' hgt hset
  subst hmax'; subst hseen'
  rcases pr with _ | p
  · exact absurd hset (by simp [wstep, observeAlive, check_watchdog, Option.map])
  · rcases ihb with _ | t <;>
      · dsimp only [Option.getD] at hgt
        dsimp only [wstep, observeAlive, check_watchdog, Option.map] at hset
        split_ifs at hset <;> simp_all [restartProc, startProc]

/-- Witness for `watchdog_staleness_restart_once`: a concrete stale run
(timeout 1 s, heartbeat stamp 0 ns, rounds at t = 10, 20, 30 with no fresh
heartbeat) restarts at most once. -/
theorem watchdog_staleness_restart_once_witness :
    (runWatchdog true ⟨some 1, 0, true, some ⟨true⟩⟩
      [⟨10, none, true⟩, ⟨20, none, true⟩, ⟨30, none, true⟩]).2.1 ≤ 1 :=
  (watchdog_staleness_restart_once ⟨some 1, 0, true, some ⟨true⟩⟩ 1
    [⟨10, none, true⟩, ⟨20, none, true⟩, ⟨30, none, true⟩] rfl (by simp)).1

end ProcessMgr

namespace Loggerd

/-- The `LogShardWriter` state.  Written data is abstracted to its byte size (the
code only uses `len`-like information: the return value of `write`, added to
`self.size`).  `shards` is the sequence of shard files produced so far, each
holding the sizes of its entries in write order; `hasStream` is
`self.logstream is not None`. -/
structure LogShardWriter where
  pattern : String
  maxcount : ℕ
  maxsize : ℕ
  shards : List (List ℕ)
  count : ℕ
  size : ℕ
  total : ℕ
  shard : ℕ
  hasStream : Bool
deriving DecidableEq

/-- Append an entry to the most recent shard file. -/
def appendLast : List (List ℕ) → ℕ → List (List ℕ)
  | [], n => [[n]]
  | [l], n => [l ++ [n]]
  | l :: ls, n => l :: appendLast ls n

/-- The `next_stream`: close the current file, open `pattern % shard`, bump the
shard index, reset per-shard count and size. -/
def LogShardWriter.next_stream (w : LogShardWriter) : LogShardWriter :=
  { w with
    shards := w.shards ++ [[]]
    shard := w.shard + 1
    count := 0
    size := 0
    hasStream := true }

/-- The `__init__` ends with a call to `next_stream()`, so shard `start_shard`
is opened immediately. -/
def LogShardWriter.init (pattern : String) (maxcount maxsize start_shard : ℕ) :
    LogShardWriter :=
  LogShardWriter.next_stream ⟨pattern, maxcount, maxsize, [], 0, 0, 0, start_shard, false⟩

/-- The `write(data)`: rotate first if the stream is missing or the current shard
has reached `maxcount` entries or `maxsize` bytes, then append. -/
def LogShardWriter.write (w : LogShardWriter) (n : ℕ) : LogShardWriter :=
  let w1 := if w.hasStream = false ∨ w.maxcount ≤ w.count ∨ w.maxsize ≤ w.size
    then w.next_stream else w
  { w1 with
    shards := appendLast w1.shards n
    count := w1.count + 1
    size := w1.size + n
    total := w1.total + 1 }

def LogShardWriter.writeAll (w : LogShardWriter) (es : List ℕ) : LogShardWriter :=
  es.foldl LogShardWriter.write w

/-- The `finish`: close the current log file. -/
def LogShardWriter.finish (w : LogShardWriter) : LogShardWriter :=
  { w with hasStream := false }

theorem appendLast_length (n : ℕ) :
    ∀ ss : List (List ℕ), ss ≠ [] → (appendLast ss n).length = ss.length := by
  intro ss
  induction ss with
  | nil => intro h; exact absurd rfl h
  | cons l ls ih =>
    intro _
    match ls with
    | [] => rfl
    | l' :: ls' =>
      show (l :: appendLast (l' :: ls') n).length = _
      simp [ih (by simp)]

/-- Writing entries that all fit in the current shard just extends it. -/
theorem writeAll_first_shard :
    ∀ (es l : List ℕ) (pat : String) (mc ms tot sh c sz : ℕ),
      c = l.length → sz = l.sum →
      l.length + es.length ≤ mc →
      (∀ j < es.length, l.sum + (es.take j).sum < ms) →
      LogShardWriter.writeAll ⟨pat, mc, ms, [l], c, sz, tot, sh, true⟩ es =
        ⟨pat, mc, ms, [l ++ es], c + es.length, sz + es.sum, tot + es.length, sh, true⟩ := by
  intro es
  induction es with
  | nil =>
    intro l pat mc ms tot sh c sz _ _ _ _
    simp [LogShardWriter.writeAll]
  | cons e es ih =>
    intro l pat mc ms tot sh c sz hc hsz hlen hsize
    have hct : ¬ (mc ≤ c) := by
      subst hc
      simp only [List.length_cons] at hlen
      omega
    have hsm : ¬ (ms ≤ sz) := by
      have h0 := hsize 0 (by simp)
      subst hsz
      simp only [List.take_zero, List.sum_nil, Nat.add_zero] at h0
      omega
    have hstep : LogShardWriter.write ⟨pat, mc, ms, [l], c, sz, tot, sh, true⟩ e =
        ⟨pat, mc, ms, [l ++ [e]], c + 1, sz + e, tot + 1, sh, true⟩ := by
      unfold LogShardWriter.write
      rw [if_neg (by simp [hct, hsm])]
      rfl
    have hrec := ih (l ++ [e]) pat mc ms (tot + 1) sh (c + 1) (sz + e)
      (by simp [hc]) (by simp [hsz])
      (by simp at hlen ⊢; omega)
      (by
        intro j hj
        have hj1 := hsize (j + 1) (by simp; omega)
        simp at hj1 ⊢
        omega)
    have hfold : LogShardWriter.writeAll ⟨pat, mc, ms, [l], c, sz, tot, sh, true⟩ (e :: es) =
        LogShardWriter.writeAll (LogShardWriter.write ⟨pat, mc, ms, [l], c, sz, tot, sh, true⟩ e) es := by
      simp [LogShardWriter.writeAll]
    rw [hfold, hstep, hrec]
    simp [LogShardWriter.mk.injEq]
    omega

/-- C4: writing `maxcount + 1` entries, each prefix of the first shard staying
under `maxsize`, yields exactly 2 shard files, the first holding exactly
`maxcount` entries; and a single `write` opens a new shard file exactly when
the current shard's entry count has reached `maxcount` or its byte size has
reached `maxsize`. -/
theorem shard_rotation (mc ms : ℕ) (es : List ℕ) (pat : String) (hmc : 0 < mc)
    (hlen : es.length = mc + 1) (hms : ∀ j < mc, (es.take j).sum < ms) :
    (((LogShardWriter.init pat mc ms 0).writeAll es).shards = [es.take mc, es.drop mc] ∧
     ((LogShardWriter.init pat mc ms 0).writeAll es).shards.length = 2 ∧
     (es.take mc).length = mc) ∧
    (∀ (w : LogShardWriter) (n : ℕ), w.hasStream = true → w.shards ≠ [] →
      ((w.write n).shards.length = w.shards.length + 1 ↔
        (w.maxcount ≤ w.count ∨ w.maxsize ≤ w.size))) := by
  constructor
  · have htke : (es.take mc).length = mc := by
      rw [List.length_take]
      omega
    obtain ⟨a, ha⟩ : ∃ a, es.drop mc = [a] := by
      have h1 : (es.drop mc).length = 1 := by rw [List.length_drop]; omega
      exact List.length_eq_one.mp h1
    have hsplit : es = es.take mc ++ [a] := by
      conv_lhs => rw [← List.take_append_drop mc es]
      rw [ha]
    have hfirst := writeAll_first_shard (es.take mc) [] pat mc ms 0 1 0 0 rfl rfl
      (by simp [htke])
      (by
        intro j hj
        rw [htke] at hj
        have hmin : j ⊓ mc = j := inf_eq_left.mpr hj.le
        rw [List.take_take, hmin]
        simpa using hms j hj)
    have hwa : (LogShardWriter.init pat mc ms 0).writeAll es =
        LogShardWriter.write
          ⟨pat, mc, ms, [[] ++ es.take mc], 0 + (es.take mc).length,
            0 + (es.take mc).sum, 0 + (es.take mc).length, 1, true⟩ a := by
      conv_lhs => rw [hsplit]
      show List.foldl LogShardWriter.write ⟨pat, mc, ms, [[]], 0, 0, 0, 1, true⟩
        (es.take mc ++ [a]) = _
      rw [List.foldl_append,
        show List.foldl LogShardWriter.write ⟨pat, mc, ms, [[]], 0, 0, 0, 1, true⟩
          (es.take mc) =
          ⟨pat, mc, ms, [[] ++ es.take mc], 0 + (es.take mc).length,
            0 + (es.take mc).sum, 0 + (es.take mc).length, 1, true⟩ from hfirst]
      rfl
    have hshards : ((LogShardWriter.init pat mc ms 0).writeAll es).shards =
        [es.take mc, es.drop mc] := by
      rw [hwa]
      unfold LogShardWriter.write
      rw [if_pos (Or.inr (Or.inl (by
        show mc ≤ 0 + (List.take mc es).length
        rw [htke]
        omega)))]
      simp [LogShardWriter.next_stream, appendLast, ha]
    exact ⟨hshards, by rw [hshards]; rfl, htke⟩
  · intro w n hstream hne
    unfold LogShardWriter.write
    by_cases hcond : w.maxcount ≤ w.count ∨ w.maxsize ≤ w.size
    · rw [if_pos (Or.inr hcond)]
      dsimp only [LogShardWriter.next_stream]
      rw [appendLast_length n (w.shards ++ [[]]) (by simp)]
      simp [hcond]
    · have hc2 : ¬ (w.hasStream = false ∨ w.maxcount ≤ w.count ∨ w.maxsize ≤ w.size) := by
        rw [hstream]
        simp only [Bool.true_eq_false, false_or]
        exact hcond
      rw [if_neg hc2]
      dsimp only
      rw [appendLast_length n w.shards hne]
      constructor
      · intro h2; exact absurd h2 (by omega)
      · intro h2; exact absurd h2 hcond

/-- Witness for `shard_rotation`: maxcount 2, maxsize 100, three entries of
sizes 1, 2, 3 produce shards `[[1, 2], [3]]`. -/
theorem shard_rotation_witness :
    ((LogShardWriter.init "s--%d.vrpslog" 2 100 0).writeAll [1, 2, 3]).shards =
      [[1, 2], [3]] :=
  ((shard_rotation 2 100 [1, 2, 3] "s--%d.vrpslog" (by decide) (by decide)
    (by decide)).1).1

/-- File-name pattern of a session's shard files:
`f"{session_id}--{date_string}--%d.vrpslog"`. -/
def sessionPattern (id date : String) : String :=
  id ++ "--" ++ date ++ "--%d.vrpslog"

/-- Session directory name: `f"{session_id}--{date_string}"`. -/
def sessionFolder (id date : String) : String :=
  id ++ "--" ++ date

/-- The `LogRecorder` state.  `closedSessions` is a ghost history of the shard
writers that have been sealed (`close()`d and dropped by the code), so that
sealing can be stated; the code itself keeps no reference to them. -/
structure LogRecorder where
  maxcount : ℕ
  maxsize : ℕ
  session : Option LogShardWriter
  session_id : Option String
  closedSessions : List LogShardWriter
deriving DecidableEq

/-- The `LogRecorder.finish`: if a session is open, close its writer and clear
`session` and `session_id`. -/
def LogRecorder.finish (r : LogRecorder) : LogRecorder :=
  match r.session with
  | none => r
  | some w =>
    { r with
      session := none
      session_id := none
      closedSessions := r.closedSessions ++ [w.finish] }

/-- The `LogRecorder.new_session`: seal any prior session (`self.finish()`), pick
the fresh session id and timestamped folder/file names, and open the first
shard (`LogShardWriter.__init__` opens it).  The random 16-character id and
the `time.strftime` date are inputs of the model. -/
def LogRecorder.new_session (r : LogRecorder) (id date : String) : LogRecorder :=
  let r1 := r.finish
  { r1 with
    session := some (LogShardWriter.init (sessionPattern id date) r.maxcount r.maxsize 0)
    session_id := some id }

/-- The `LogRecorder.stop_session` = `self.finish()`. -/
def LogRecorder.stop_session (r : LogRecorder) : LogRecorder :=
  r.finish

/-- The `LogRecorder.write`: write to the current session if there is one,
otherwise return immediately — the data is discarded, nothing is buffered. -/
def LogRecorder.write (r : LogRecorder) (n : ℕ) : LogRecorder :=
  match r.session with
  | none => r
  | some w => { r with session := some (w.write n) }

/-- One message round of `LoggerServer.recording_logger_server`: the entry is
written first, then the control topics are processed (`stop` checked before
`start`). -/
def handleRecordedMessage (r : LogRecorder) (topic : String) (entry : ℕ)
    (id date : String) : LogRecorder :=
  let r1 := r.write entry
  if topic = "/loggerd/stop/" then r1.stop_session
  else if topic = "/loggerd/start/" then r1.new_session id date
  else r1

/-- C8: the start-recording topic seals any open session and opens a fresh one
under the newly chosen id and timestamped names; the stop-recording topic
seals the current session; and a write with no active session is a no-op —
the recorder state is returned unchanged, nothing is buffered. -/
theorem record_session_control (r : LogRecorder) (id date : String) (n : ℕ) :
    ((r.new_session id date).session_id = some id ∧
     (r.new_session id date).session =
       some (LogShardWriter.init (sessionPattern id date) r.maxcount r.maxsize 0) ∧
     (r.new_session id date).closedSessions =
       r.closedSessions ++ (r.session.map LogShardWriter.finish).toList) ∧
    (r.stop_session.session = none ∧
     r.stop_session.closedSessions =
       r.closedSessions ++ (r.session.map LogShardWriter.finish).toList) ∧
    (r.session = none → r.write n = r) ∧
    (handleRecordedMessage r "/loggerd/start/" n id date = (r.write n).new_session id date) ∧
    (handleRecordedMessage r "/loggerd/stop/" n id date = (r.write n).stop_session) := by
  obtain ⟨mc, ms, sess, sid, hist⟩ := r
  rcases sess with _ | w
  · exact ⟨⟨rfl, rfl, by simp [LogRecorder.new_session, LogRecorder.finish]⟩,
      ⟨rfl, by simp [LogRecorder.stop_session, LogRecorder.finish]⟩,
      fun _ => rfl, rfl, rfl⟩
  · refine ⟨⟨rfl, rfl, by simp [LogRecorder.new_session, LogRecorder.finish]⟩,
      ⟨rfl, by simp [LogRecorder.stop_session, LogRecorder.finish]⟩,
      fun h => absurd h (by simp), rfl, rfl⟩

/-- Witness for `record_session_control`: with no active session, a write is
exactly the identity. -/
theorem record_session_control_witness :
    LogRecorder.write ⟨5, 100, none, none, []⟩ 3 = ⟨5, 100, none, none, []⟩ :=
  (record_session_control ⟨5, 100, none, none, []⟩ "abc" "2024-01-01" 3).2.2.1 rfl

end Loggerd

namespace Replayd

/-- A persisted `LogEntry` (`logMonoTime`, `topic`, `data`). -/
structure Entry where
  logMonoTime : ℚ
  topic : String
  data : String
deriving DecidableEq

/-- The `LogReplayer` state: `shards` are the decoded `.vrpslog` files in
numeric-suffix order (`allfiles`); `current_entryiter` holds the entries
remaining in the currently open shard; `current_time` is the cached
`_current_time`. -/
structure LogReplayer where
  shards : List (List Entry)
  next_file_idx : ℕ
  current_entryiter : Option (List Entry)
  current_time : Option ℚ
deriving DecidableEq

/-- The `starttime`: `logMonoTime` of the first entry of the first shard file;
`none` models the `IndexError`/`StopIteration` crash on an empty session. -/
def LogReplayer.starttime (lr : LogReplayer) : Option ℚ :=
  match lr.shards with
  | [] => none
  | s :: _ =>
    match s with
    | [] => none
    | e :: _ => some e.logMonoTime

/-- The `current_time` property getter: caches `starttime` on first access;
`none` in the first component models the getter crashing. -/
def LogReplayer.getCurrentTime (lr : LogReplayer) : Option ℚ × LogReplayer :=
  match lr.current_time with
  | some t => (some t, lr)
  | none =>
    match lr.starttime with
    | some st => (some st, { lr with current_time := some st })
    | none => (none, lr)

/-- The part of `__next__` that opens shard files: starting at
`next_file_idx`, skip empty shards; past the last file, bump the index and
raise `StopIteration` (modelled as a `none` entry). -/
def nextFromShards (lr : LogReplayer) : Option Entry × LogReplayer :=
  if h : lr.next_file_idx < lr.shards.length then
    match lr.shards[lr.next_file_idx] with
    | e :: rest =>
      (some e,
        { lr with
          next_file_idx := lr.next_file_idx + 1
          current_entryiter := some rest
          current_time := some e.logMonoTime })
    | [] => nextFromShards { lr with next_file_idx := lr.next_file_idx + 1 }
  else
    (none, { lr with next_file_idx := lr.next_file_idx + 1 })
termination_by lr.shards.length - lr.next_file_idx
decreasing_by simp_wf; omega

/-- The `LogReplayer.__next__`: pop from the open shard and record its time in
`current_time`; on inner exhaustion clear the iterator and continue with the
next shard file. -/
def LogReplayer.next (lr : LogReplayer) : Option Entry × LogReplayer :=
  match lr.current_entryiter with
  | some (e :: rest) =>
    (some e,
      { lr with
        current_entryiter := some rest
        current_time := some e.logMonoTime })
  | some [] => nextFromShards { lr with current_entryiter := none }
  | none => nextFromShards lr

/-- Number of entries the cursor can still produce. -/
def remainingEntries (lr : LogReplayer) : ℕ :=
  (lr.shards.drop lr.next_file_idx).foldr (fun s acc => s.length + acc) 0 +
    (lr.current_entryiter.getD []).length

theorem nextFromShards_remaining :
    ∀ (n : ℕ) (lr : LogReplayer), lr.shards.length - lr.next_file_idx ≤ n →
      ∀ e lr2, nextFromShards lr = (some e, lr2) →
        remainingEntries lr2 < remainingEntries lr := by
  intro n
  induction n with
  | zero =>
    intro lr hle e lr2 heq
    rw [nextFromShards] at heq
    rw [dif_neg (by omega)] at heq
    simp at heq
  | succ n ih =>
    intro lr hle e lr2 heq
    rw [nextFromShards] at heq
    by_cases h : lr.next_file_idx < lr.shards.length
    · rw [dif_pos h] at heq
      have hdrop := List.drop_eq_getElem_cons h
      cases hsh : lr.shards[lr.next_file_idx] with
      | nil =>
        rw [hsh] at heq
        have hlt := ih { lr with next_file_idx := lr.next_file_idx + 1 }
          (by simp; omega) e lr2 heq
        have hre : remainingEntries { lr with next_file_idx := lr.next_file_idx + 1 } ≤
            remainingEntries lr := by
          unfold remainingEntries
          rw [show lr.shards.drop lr.next_file_idx =
            lr.shards[lr.next_file_idx] :: lr.shards.drop (lr.next_file_idx + 1) from hdrop, hsh]
          simp
        omega
      | cons e' rest =>
        rw [hsh] at heq
        injection heq with h1 h2
        subst h2
        unfold remainingEntries
        rw [show lr.shards.drop lr.next_file_idx =
          lr.shards[lr.next_file_idx] :: lr.shards.drop (lr.next_file_idx + 1) from hdrop, hsh]
        simp
        omega
    · rw [dif_neg h] at heq
      simp at heq


theorem next_remaining (lr : LogReplayer) (e : Entry) (lr2 : LogReplayer)
    (h : lr.next = (some e, lr2)) : remainingEntries lr2 < remainingEntries lr := by
  unfold LogReplayer.next at h
  cases hiter : lr.current_entryiter with
  | none =>
    rw [hiter] at h
    exact nextFromShards_remaining (lr.shards.length - lr.next_file_idx) lr le_rfl e lr2 h
  | some l =>
    cases l with
    | nil =>
      rw [hiter] at h
      have hlt := nextFromShards_remaining
        ((LogReplayer.mk lr.shards lr.next_file_idx none lr.current_time).shards.length -
          (LogReplayer.mk lr.shards lr.next_file_idx none lr.current_time).next_file_idx)
        { lr with current_entryiter := none } le_rfl e lr2 h
      have heq2 : remainingEntries { lr with current_entryiter := none } =
          remainingEntries lr := by
        unfold remainingEntries
        rw [hiter]
        rfl
      omega
    | cons e' rest =>
      rw [hiter] at h
      injection h with h1 h2
      subst h2
      unfold remainingEntries
      rw [hiter]
      simp

/-- The seek loop of `LogReplayer.seek_time`:
`while self.current_time < time: next(self)`, with `StopIteration` caught and
terminating the loop. -/
def seekLoop (t : ℚ) (lr : LogReplayer) : LogReplayer :=
  match lr.current_time with
  | none => lr
  | some ct =>
    if ct < t then
      if hr : (lr.next).1.isSome then seekLoop t (lr.next).2 else (lr.next).2
    else lr
termination_by remainingEntries lr
decreasing_by
  obtain ⟨e, he⟩ := Option.isSome_iff_exists.mp hr
  exact next_remaining lr e (lr.next).2 (by rw [← he])

/-- The `LogReplayer.seek_time(time)`: reads the `current_time` property (`none` =
crash on an empty session), rewinds to shard 0 if the target precedes the
cursor time — note the cached `_current_time` itself is *not* rewound — then
linearly scans forward while `current_time < time`, and finally overwrites
`current_time` with the target. -/
def LogReplayer.seek_time (lr0 : LogReplayer) (t : ℚ) : Option LogReplayer :=
  match lr0.getCurrentTime with
  | (none, _) => none
  | (some ct, lr1) =>
    let lr2 := if t < ct then
      { lr1 with
        next_file_idx := 0
        current_entryiter := none }
      else lr1
    let lr3 := seekLoop t lr2
    some { lr3 with current_time := some t }

/-- A Python exception as seen by the command loop: `DeepDRRServerException`
carries a structured `(code, message)` pair; anything else (`AttributeError`,
`IndexError`, ...) is an untyped Python error that the loop's
`except DeepDRRServerException` clause does not catch. -/
inductive PyErr where
  | domain (code : ℕ) (message : String)
  | python (message : String)
deriving DecidableEq

/-- The `LogReplayServer` state.  `sessions` models the contents of the log root
directory (`pathes_sorted_mtime` and the shard files of each session), sorted
by modification time. -/
structure LogReplayServer where
  log_replayer : Option LogReplayer
  play_state : Bool
  log_id : Option String
  log_time_offset : Option ℚ
  loop : Bool
  playback_time : Option ℚ
  enabled : Bool
  logentry_valid : Bool
  sessions : List (String × List (List Entry))
deriving DecidableEq

/-- The `LogReplayer(Path(log_dir) / logId)`: open the named session's shard
files with a fresh cursor. -/
def loadReplayer (sessions : List (String × List (List Entry))) (id : String) :
    LogReplayer :=
  ⟨(sessions.lookup id).getD [], 0, none, none⟩

/-- The `play_state` property setter: raises `DeepDRRServerException(400,
"no log loaded")` *before any mutation* when asked to play with no loaded
log; on transition to playing recomputes
`log_time_offset = time.time() - self.log_replayer.current_time` and clears
`logentry_valid`; on transition to stopped sets `log_time_offset = None`.
Errors carry the state as it stands at the raise. -/
def LogReplayServer.setPlayState (s : LogReplayServer) (state : Bool) (now : ℚ) :
    Except (PyErr × LogReplayServer) LogReplayServer :=
  if state = true ∧ s.log_replayer = none then
    .error (.domain 400 "no log loaded", s)
  else
    let s1 := { s with play_state := state }
    if state = true then
      match s1.log_replayer with
      | some lr =>
        match lr.getCurrentTime with
        | (some ct, lr2) =>
          .ok { s1 with
            log_replayer := some lr2
            log_time_offset := some (now - ct)
            logentry_valid := false }
        | (none, lr2) =>
          .error (.python "empty log folder", { s1 with log_replayer := some lr2 })
      | none => .error (.python "unreachable", s1)
    else
      .ok { s1 with log_time_offset := none }

/-- The `LogReplayServer.seek_time(time)`: remember the play state, pause, seek the
replayer — an `AttributeError` escapes here if no log is loaded — record
`playback_time`, and restore the previous play state. -/
def LogReplayServer.seek_time (s : LogReplayServer) (t : ℚ) (now : ℚ) :
    Except (PyErr × LogReplayServer) LogReplayServer :=
  let prev := s.play_state
  match s.setPlayState false now with
  | .error e => .error e
  | .ok s1 =>
    match s1.log_replayer with
    | none => .error (.python "AttributeError: NoneType has no seek_time", s1)
    | some lr =>
      match lr.seek_time t with
      | none => .error (.python "empty log folder", s1)
      | some lr2 =>
        let s2 := { s1 with
          log_replayer := some lr2
          playback_time := some t }
        s2.setPlayState prev now

/-- The `StopIteration` handler at the end of `replay_loop`: on loop, seek
back to the session's start time; otherwise stop playback. -/
def LogReplayServer.onStopIteration (s : LogReplayServer) (now : ℚ) :
    Except (PyErr × LogReplayServer) LogReplayServer :=
  if s.loop then
    match s.log_replayer with
    | none => .error (.python "AttributeError: NoneType has no starttime", s)
    | some lr =>
      match lr.starttime with
      | none => .error (.python "empty log folder", s)
      | some st => s.seek_time st now
  else
    s.setPlayState false now

/-- Exit condition of the scheduling wait in `replay_loop`: the busy-wait
`while ... time.time() - self.log_time_offset < logentry.logMonoTime:
 await asyncio.sleep(0.001)` lets the entry be published only once this
becomes true. -/
def sendDue (now offset mono : ℚ) : Bool :=
  !(decide (now - offset < mono))

/-- The decoded command messages of one `command_loop` round: which
`/replayd/in/...` topics are present in `latest_msgs` and their payloads. -/
structure LoadMsg where
  logId : String
  loopFlag : Bool
  autoplay : Bool
deriving DecidableEq

structure CmdMsgs where
  enableMsg : Bool
  disableMsg : Bool
  loadMsg : Option LoadMsg
  loopMsg : Option Bool
  startMsg : Bool
  stopMsg : Bool
  scrubMsg : Option ℚ
deriving DecidableEq

/-- The body of one `command_loop` round, between the poll and the
`except DeepDRRServerException` clause, processing topics in source order:
enable, the not-enabled early `continue`, disable, load, loop, start, stop,
scrub.  An exception aborts the remaining handlers, carrying the state
mutated so far. -/
def LogReplayServer.commandStep (s0 : LogReplayServer) (m : CmdMsgs) (now : ℚ) :
    Except (PyErr × LogReplayServer) LogReplayServer :=
  let s1 := if m.enableMsg then { s0 with enabled := true } else s0
  if s1.enabled = false then .ok s1
  else do
    let s2 ← if m.disableMsg then
        ({ s1 with enabled := false }).setPlayState false now
      else .ok s1
    let s3 ← match m.loadMsg with
      | none => .ok s2
      | some msg => do
        let s2a ← s2.setPlayState false now
        if (s2a.sessions.map Prod.fst).contains msg.logId = false then
          .error (.domain 400 ("log " ++ msg.logId ++ " not found"), s2a)
        else
          let s2b := { s2a with
            log_id := some msg.logId
            log_replayer := some (loadReplayer s2a.sessions msg.logId)
            loop := msg.loopFlag }
          s2b.setPlayState msg.autoplay now
    let s4 := match m.loopMsg with
      | none => s3
      | some b => { s3 with loop := b }
    let s5 ← if m.startMsg then s4.setPlayState true now else .ok s4
    let s6 ← if m.stopMsg then s5.setPlayState false now else .ok s5
    match m.scrubMsg with
    | none => .ok s6
    | some t => s6.seek_time t now

/-- One `command_loop` iteration including its exception handling: a
`DeepDRRServerException` is caught and published on `/server_exception/` as a
`(code, message)` status response, and the loop continues with the state at
the raise; any other exception escapes the loop. -/
def LogReplayServer.commandIter (s : LogReplayServer) (m : CmdMsgs) (now : ℚ) :
    Except PyErr (LogReplayServer × List (String × ℕ × String)) :=
  match s.commandStep m now with
  | .ok s2 => .ok (s2, [])
  | .error (.domain c msg, s2) => .ok (s2, [("/server_exception/", c, msg)])
  | .error (.python msg, _) => .error (.python msg)

theorem setPlayState_false (s : LogReplayServer) (now : ℚ) :
    s.setPlayState false now = .ok { s with play_state := false, log_time_offset := none } := by
  unfold LogReplayServer.setPlayState
  rw [if_neg (by simp)]
  rfl

theorem setPlayState_true (s : LogReplayServer) (now ct : ℚ) (lr lr2 : LogReplayer)
    (h : s.log_replayer = some lr) (hct : lr.getCurrentTime = (some ct, lr2)) :
    s.setPlayState true now = .ok { s with
      play_state := true
      log_replayer := some lr2
      log_time_offset := some (now - ct)
      logentry_valid := false } := by
  unfold LogReplayServer.setPlayState
  rw [if_neg (by simp [h])]
  simp [h, hct]

/-- C10: asking to play with no loaded log raises
`DeepDRRServerException(400, "no log loaded")` before any mutation: the state
at the raise is exactly the input state, so the stored play state and the
time offset are untouched. -/
theorem play_true_without_log (s : LogReplayServer) (now : ℚ)
    (h : s.log_replayer = none) :
    s.setPlayState true now = .error (.domain 400 "no log loaded", s) ∧
    (∀ (e : PyErr) (s2 : LogReplayServer), s.setPlayState true now = .error (e, s2) →
      s2.play_state = s.play_state ∧ s2.log_time_offset = s.log_time_offset) := by
  have h1 : s.setPlayState true now = .error (.domain 400 "no log loaded", s) := by
    unfold LogReplayServer.setPlayState
    rw [if_pos ⟨rfl, h⟩]
  refine ⟨h1, ?_⟩
  intro e s2 h2
  rw [h1] at h2
  injection h2 with h3
  injection h3 with h4 h5
  subst h5
  exact ⟨rfl, rfl⟩

/-- Witness for `play_true_without_log` at a concrete idle server. -/
theorem play_true_without_log_witness :
    LogReplayServer.setPlayState ⟨none, false, none, none, false, none, true, false, []⟩ true 5 =
      .error (.domain 400 "no log loaded", ⟨none, false, none, none, false, none, true, false, []⟩) :=
  (play_true_without_log ⟨none, false, none, none, false, none, true, false, []⟩ 5 rfl).1

/-- C5: a transition to playing recomputes
`log_time_offset = now - cursor_time` from the moment of the transition — the
previous offset never appears in the result; a transition to stopped sets the
offset to `None`; and the replay loop publishes an entry only once the wall
clock has reached `entry.logMonoTime + log_time_offset`. -/
theorem time_offset_recomputed (s : LogReplayServer) (now ct : ℚ) (lr lr2 : LogReplayer)
    (h : s.log_replayer = some lr) (hct : lr.getCurrentTime = (some ct, lr2)) :
    (s.setPlayState true now = .ok { s with
      play_state := true
      log_replayer := some lr2
      log_time_offset := some (now - ct)
      logentry_valid := false }) ∧
    (∀ (s' : LogReplayServer) (now' : ℚ), s'.setPlayState false now' =
      .ok { s' with play_state := false, log_time_offset := none }) ∧
    (∀ now2 off mono : ℚ, sendDue now2 off mono = true ↔ mono + off ≤ now2) := by
  refine ⟨setPlayState_true s now ct lr lr2 h hct, setPlayState_false, ?_⟩
  intro now2 off mono
  unfold sendDue
  simp only [Bool.not_eq_true', decide_eq_false_iff_not, not_lt]
  constructor <;> intro h2 <;> linarith

/-- Witness for `time_offset_recomputed`: the stale offset 99 is replaced by
`10 - 2` computed from the transition time and the cursor. -/
theorem time_offset_recomputed_witness :
    LogReplayServer.setPlayState
      ⟨some ⟨[[⟨2, "t", "d"⟩]], 0, none, some 2⟩, false, none, some 99, false, none, true, false, []⟩
      true 10 =
    .ok { LogReplayServer.mk
        (some ⟨[[⟨2, "t", "d"⟩]], 0, none, some 2⟩) false none (some 99) false none true false [] with
      play_state := true
      log_replayer := some ⟨[[⟨2, "t", "d"⟩]], 0, none, some 2⟩
      log_time_offset := some (10 - 2)
      logentry_valid := false } :=
  (time_offset_recomputed
    ⟨some ⟨[[⟨2, "t", "d"⟩]], 0, none, some 2⟩, false, none, some 99, false, none, true, false, []⟩
    10 2 ⟨[[⟨2, "t", "d"⟩]], 0, none, some 2⟩ ⟨[[⟨2, "t", "d"⟩]], 0, none, some 2⟩
    rfl rfl).1

/-- A round whose only command is `/replayd/in/start/`. -/
def startOnly : CmdMsgs := ⟨false, false, none, none, true, false, none⟩

/-- A round whose only command is `/replayd/in/load/` with the given payload. -/
def loadOnly (id : String) (lp ap : Bool) : CmdMsgs :=
  ⟨false, false, some ⟨id, lp, ap⟩, none, false, false, none⟩

/-- A round whose only command is `/replayd/in/scrub/` with the given target. -/
def scrubOnly (t : ℚ) : CmdMsgs := ⟨false, false, none, none, false, false, some t⟩

/-- C9 counterexample: `scrub` with no session loaded does *not* raise a
structured domain error — `self.log_replayer.seek_time(...)` raises an
`AttributeError` on `None`, which `except DeepDRRServerException` does not
catch, so the error escapes the command loop instead of being published. -/
theorem scrub_no_session_escapes :
    LogReplayServer.commandIter ⟨none, false, none, none, false, none, true, false, []⟩
      (scrubOnly 1) 0 =
    .error (.python "AttributeError: NoneType has no seek_time") := by
  rfl

/-- C9 amended: a command-handler `DeepDRRServerException` is caught by the
command loop, published on `/server_exception/` as its `(code, message)`
status response, and the loop continues with the state at the raise; `start`
with no session loaded and `load` with an unknown session id raise exactly
such errors.  (`scrub` with no session loaded instead raises an untyped
`AttributeError` that escapes the loop — see the counterexample.) -/
theorem command_domain_errors (s : LogReplayServer) (m : CmdMsgs) (now : ℚ)
    (id : String) (lp ap : Bool)
    (henabled : s.enabled = true) (hnolog : s.log_replayer = none)
    (hunknown : (s.sessions.map Prod.fst).contains id = false) :
    (∀ (c : ℕ) (msg : String) (s2 : LogReplayServer),
      s.commandStep m now = .error (.domain c msg, s2) →
      s.commandIter m now = .ok (s2, [("/server_exception/", c, msg)])) ∧
    (s.commandIter startOnly now = .ok (s, [("/server_exception/", 400, "no log loaded")])) ∧
    (s.commandIter (loadOnly id lp ap) now =
      .ok ({ s with play_state := false, log_time_offset := none },
        [("/server_exception/", 400, "log " ++ id ++ " not found")])) := by
  refine ⟨?_, ?_, ?_⟩
  · intro c msg s2 h
    unfold LogReplayServer.commandIter
    rw [h]
  · have hstep : s.commandStep startOnly now = .error (.domain 400 "no log loaded", s) := by
      unfold LogReplayServer.commandStep
      simp only [startOnly, if_neg, ite_false, Bool.false_eq_true]
      rw [if_neg (by simp [henabled])]
      have hplay : s.setPlayState true now = .error (.domain 400 "no log loaded", s) := by
        unfold LogReplayServer.setPlayState
        rw [if_pos ⟨rfl, hnolog⟩]
      simp [Bind.bind, Except.bind, hplay]
    unfold LogReplayServer.commandIter
    rw [hstep]
  · have hstep : s.commandStep (loadOnly id lp ap) now =
        .error (.domain 400 ("log " ++ id ++ " not found"),
          { s with play_state := false, log_time_offset := none }) := by
      unfold LogReplayServer.commandStep
      simp only [loadOnly, ite_false, Bool.false_eq_true]
      rw [if_neg (by simp [henabled])]
      simp only [Bind.bind, Except.bind, setPlayState_false]
      rw [if_pos hunknown]
    unfold LogReplayServer.commandIter
    rw [hstep]

/-- Witness for `command_domain_errors`: a loaded-nothing, enabled server
publishes `(400, "no log loaded")` on `start` and keeps running. -/
theorem command_domain_errors_witness :
    LogReplayServer.commandIter ⟨none, false, none, none, false, none, true, false, []⟩
      startOnly 0 =
    .ok (⟨none, false, none, none, false, none, true, false, []⟩,
      [("/server_exception/", 400, "no log loaded")]) :=
  (command_domain_errors ⟨none, false, none, none, false, none, true, false, []⟩
    startOnly 0 "zzz" false false rfl rfl rfl).2.1

/-- Rewinding seek: when the target precedes the cached cursor time, the file
index is reset to shard 0 and the cursor iterator cleared; because the cached
`current_time` still holds the old (larger) value, the forward-scan loop does
not run, and `current_time` is then overwritten with the target. -/
theorem seek_time_rewind (lr : LogReplayer) (ct st0 : ℚ)
    (hct : lr.current_time = some ct) (hlt : st0 < ct) :
    lr.seek_time st0 = some ⟨lr.shards, 0, none, some st0⟩ := by
  unfold LogReplayer.seek_time LogReplayer.getCurrentTime
  rw [hct]
  simp only
  rw [if_pos hlt]
  have hloop : seekLoop st0
      { lr with next_file_idx := 0, current_entryiter := none } = 
      { lr with next_file_idx := 0, current_entryiter := none } := by
    rw [seekLoop]
    have hct2 : ({ lr with next_file_idx := 0, current_entryiter := none
      } : LogReplayer).current_time = some ct := hct
    rw [hct2]
    simp only
    rw [if_neg hlt.asymm]
  rw [hloop]

/-- Degenerate seek: when the target neither precedes nor exceeds the cached
cursor time, `seek_time` takes neither the rewind branch (its test
`time < self.current_time` is strict) nor the forward-scan loop, so the file
index and iterator are left untouched and only `current_time` is
overwritten. -/
theorem seek_time_stay (lr : LogReplayer) (ct st0 : ℚ)
    (hct : lr.current_time = some ct) (h1 : ¬ st0 < ct) (h2 : ¬ ct < st0) :
    lr.seek_time st0 = some { lr with current_time := some st0 } := by
  unfold LogReplayer.seek_time LogReplayer.getCurrentTime
  rw [hct]
  simp only
  rw [if_neg h1]
  have hloop : seekLoop st0 lr = lr := by
    rw [seekLoop]
    rw [hct]
    simp only
    rw [if_neg h2]
  rw [hloop]

/-- C6, amended: on exhausting all shards while playing, with the loop flag
set: if the session's start time strictly precedes the cursor time at
exhaustion, the engine seeks back to the start — cursor rewound to shard 0,
`current_time` at the start time, offset re-anchored — and playback continues
in the same (playing) state; if the start time *equals* the cursor time (as
in a session whose entries all share one timestamp, e.g. a single entry), the
strict rewind test skips the reset: the play state is restored but the file
index and iterator are left where they were — past the end — so nothing is
replayed.  If the loop flag is not set, the engine transitions to stopped and
clears the offset. -/
theorem end_of_session_behavior (s : LogReplayServer) (now ct st0 : ℚ) (lr : LogReplayer)
    (h : s.log_replayer = some lr) (hplay : s.play_state = true)
    (hct : lr.current_time = some ct) (hst : lr.starttime = some st0) :
    (s.loop = true → st0 < ct → s.onStopIteration now =
      .ok { s with
        log_replayer := some ⟨lr.shards, 0, none, some st0⟩
        play_state := true
        log_time_offset := some (now - st0)
        playback_time := some st0
        logentry_valid := false }) ∧
    (s.loop = true → st0 = ct → s.onStopIteration now =
      .ok { s with
        log_replayer := some { lr with current_time := some st0 }
        play_state := true
        log_time_offset := some (now - st0)
        playback_time := some st0
        logentry_valid := false }) ∧
    (s.loop = false → s.onStopIteration now =
      .ok { s with play_state := false, log_time_offset := none }) := by
  refine ⟨?_, ?_, ?_⟩
  · intro hloop hlt
    unfold LogReplayServer.onStopIteration
    rw [if_pos hloop]
    simp only [h, hst]
    unfold LogReplayServer.seek_time
    rw [setPlayState_false]
    simp only [h, seek_time_rewind lr ct st0 hct hlt]
    rw [hplay]
    rw [setPlayState_true _ now st0 ⟨lr.shards, 0, none, some st0⟩
      ⟨lr.shards, 0, none, some st0⟩ rfl rfl]
  · intro hloop heq
    subst heq
    unfold LogReplayServer.onStopIteration
    rw [if_pos hloop]
    simp only [h, hst]
    unfold LogReplayServer.seek_time
    rw [setPlayState_false]
    simp only [h, seek_time_stay lr st0 st0 hct (lt_irrefl st0) (lt_irrefl st0)]
    rw [hplay]
    rw [setPlayState_true _ now st0 { lr with current_time := some st0 }
      { lr with current_time := some st0 } rfl rfl]
  · intro hloop
    unfold LogReplayServer.onStopIteration
    rw [if_neg (by rw [hloop]; simp)]
    exact setPlayState_false s now

/-- A sealed session holding a single entry at t = 0, exhausted: the file
index is past the single shard and the cursor time equals the start time. -/
def singleEntrySession : LogReplayer := ⟨[[⟨0, "a", "d"⟩]], 2, none, some 0⟩

/-- C6 counterexample: the original claim — looping always seeks back to the
session's start, so the next entry read after the loop handling is the
session's first entry — fails on a session whose start time equals the cursor
time at exhaustion (here a single-entry session): `seek_time`'s strict
`time < self.current_time` test skips the rewind, so the restored cursor is
still past the end and the next read raises `StopIteration` again; looping
replays nothing. -/
theorem end_of_session_loop_counterexample :
    ¬ (∀ (s : LogReplayServer) (now : ℚ) (lr : LogReplayer) (st0 : ℚ),
        s.log_replayer = some lr → s.play_state = true → s.loop = true →
        lr.starttime = some st0 →
        ∀ s2, s.onStopIteration now = .ok s2 →
        ∃ lr2 e, s2.log_replayer = some lr2 ∧ (lr2.next).1 = some e ∧
          e.logMonoTime = st0) := by
  intro hclaim
  have heval : LogReplayServer.onStopIteration
      ⟨some singleEntrySession, true, some "x", some 42, true, some 0, true, true, []⟩ 10 =
      .ok { LogReplayServer.mk (some singleEntrySession) true (some "x") (some 42) true
          (some 0) true true [] with
        log_replayer := some { singleEntrySession with current_time := some 0 }
        play_state := true
        log_time_offset := some (10 - 0)
        playback_time := some 0
        logentry_valid := false } := by
    unfold LogReplayServer.onStopIteration
    rw [if_pos rfl]
    simp only [show singleEntrySession.starttime = some 0 from rfl]
    unfold LogReplayServer.seek_time
    rw [setPlayState_false]
    simp only [seek_time_stay singleEntrySession 0 0 rfl (lt_irrefl 0) (lt_irrefl 0)]
    rw [setPlayState_true _ 10 0 { singleEntrySession with current_time := some 0 }
      { singleEntrySession with current_time := some 0 } rfl rfl]
  obtain ⟨lr2, e, h1, h2, h3⟩ := hclaim _ 10 singleEntrySession 0 rfl rfl rfl rfl _ heval
  have hnone : (LogReplayer.next singleEntrySession).1 = none := by
    show (nextFromShards singleEntrySession).1 = none
    rw [nextFromShards, dif_neg (by decide)]
  dsimp only at h1
  injection h1 with hlr2
  rw [← hlr2] at h2
  rw [show ({ singleEntrySession with current_time := some 0 } : LogReplayer) =
    singleEntrySession from rfl] at h2
  rw [hnone] at h2
  exact absurd h2 (by simp)

/-- A session of one shard with entries at t = 0 and t = 3, exhausted
(file index past the end, cursor time at the last entry). -/
def exhaustedReplayer : LogReplayer :=
  ⟨[[⟨0, "a", "d"⟩, ⟨3, "a", "d"⟩]], 2, none, some 3⟩

/-- Witness for `end_of_session_behavior`: a playing, looping server at the
end of the session seeks back to start time 0 and keeps playing. -/
theorem end_of_session_behavior_witness :
    LogReplayServer.onStopIteration
      ⟨some exhaustedReplayer, true, some "x", some 42, true, some 3, true, true, []⟩ 10 =
    .ok { LogReplayServer.mk (some exhaustedReplayer) true (some "x") (some 42) true
        (some 3) true true [] with
      log_replayer := some ⟨exhaustedReplayer.shards, 0, none, some 0⟩
      play_state := true
      log_time_offset := some (10 - 0)
      playback_time := some 0
      logentry_valid := false } :=
  (end_of_session_behavior
    ⟨some exhaustedReplayer, true, some "x", some 42, true, some 3, true, true, []⟩
    10 3 0 exhaustedReplayer rfl rfl rfl rfl).1 rfl (by decide)

/-- One shard with entries at t = 0, 2, 4, fresh cursor. -/
def scrubEntry (q : ℚ) : Entry := ⟨q, "/vr/", "d"⟩

def scrubReplayer : LogReplayer :=
  ⟨[[scrubEntry 0, scrubEntry 2, scrubEntry 4]], 0, none, none⟩

/-- C2, divergence at a concrete input: scrubbing to t = 1 should leave the
cursor on the first entry with `monotonic_time >= 1` (the entry at t = 2), but
the scan loop `while self.current_time < time: next(self)` consumes that entry
too (the source marks this `TODO: this seeks one past`), so the next entry
read is the one at t = 4. -/
theorem scrub_consumes_first_match :
    ((scrubReplayer.seek_time 1).map (fun lr => lr.next.1)) = some (some (scrubEntry 4)) ∧
    [scrubEntry 0, scrubEntry 2, scrubEntry 4].find?
      (fun e => decide ((1 : ℚ) ≤ e.logMonoTime)) = some (scrubEntry 2) ∧
    scrubEntry 4 ≠ scrubEntry 2 := by
  refine ⟨?_, by decide, by decide⟩
  have h_nfs : nextFromShards ⟨[[scrubEntry 0, scrubEntry 2, scrubEntry 4]], 0, none, some 0⟩ =
      (some (scrubEntry 0),
        ⟨[[scrubEntry 0, scrubEntry 2, scrubEntry 4]], 1, some [scrubEntry 2, scrubEntry 4], some 0⟩) := by
    rw [nextFromShards, dif_pos (by decide)]
    rfl
  have h_nextA : LogReplayer.next ⟨[[scrubEntry 0, scrubEntry 2, scrubEntry 4]], 0, none, some 0⟩ =
      (some (scrubEntry 0),
        ⟨[[scrubEntry 0, scrubEntry 2, scrubEntry 4]], 1, some [scrubEntry 2, scrubEntry 4], some 0⟩) := by
    unfold LogReplayer.next
    exact h_nfs
  have h_loopC : seekLoop 1
      ⟨[[scrubEntry 0, scrubEntry 2, scrubEntry 4]], 1, some [scrubEntry 4], some 2⟩ =
      ⟨[[scrubEntry 0, scrubEntry 2, scrubEntry 4]], 1, some [scrubEntry 4], some 2⟩ := by
    rw [seekLoop]
    dsimp only
    rw [if_neg (by norm_num)]
  have h_loopB : seekLoop 1
      ⟨[[scrubEntry 0, scrubEntry 2, scrubEntry 4]], 1, some [scrubEntry 2, scrubEntry 4], some 0⟩ =
      ⟨[[scrubEntry 0, scrubEntry 2, scrubEntry 4]], 1, some [scrubEntry 4], some 2⟩ := by
    rw [seekLoop]
    dsimp only
    rw [if_pos (by norm_num)]
    exact h_loopC
  have h_loopA : seekLoop 1
      ⟨[[scrubEntry 0, scrubEntry 2, scrubEntry 4]], 0, none, some 0⟩ =
      ⟨[[scrubEntry 0, scrubEntry 2, scrubEntry 4]], 1, some [scrubEntry 4], some 2⟩ := by
    rw [seekLoop]
    dsimp only
    rw [if_pos (by norm_num)]
    simp only [h_nextA]
    exact h_loopB
  have h_seek : scrubReplayer.seek_time 1 =
      some ⟨[[scrubEntry 0, scrubEntry 2, scrubEntry 4]], 1, some [scrubEntry 4], some 1⟩ := by
    unfold LogReplayer.seek_time
    rw [show scrubReplayer.getCurrentTime =
      (some 0, ⟨[[scrubEntry 0, scrubEntry 2, scrubEntry 4]], 0, none, some 0⟩) from rfl]
    dsimp only
    rw [if_neg (by norm_num), h_loopA]
  rw [h_seek]
  rfl
